import Mathlib

/-!
Shallow embedding of the pico2w-bootloader-rs second-stage bootloader
(src/src/main.rs) and proofs about its specification.

Modelling conventions:
* Machine memory (the RP2350's XIP-mapped flash plus anything else the raw
  pointer reads can see) is a function `Nat → Nat`; byte reads truncate with
  `% 256`, matching `*const u8` dereferences.
* `u32` arithmetic that can overflow in the source (the erase-size
  computation) is embedded with an explicit `% 2^32`.
* Flash device calls (`flash.erase`, `flash.write`) and UART transfers are
  given explicit success/failure schedules; a successful `uart.read` of `n`
  bytes consumes the next `n` bytes of the host's stream.
-/

/-- Compile-time flash layout constant from src/src/main.rs: `APP_OFFSET`. -/
def APP_OFFSET : Nat := 64 * 1024

/-- Compile-time constant from src/src/main.rs: `FLASH_BASE_ADDR`. -/
def FLASH_BASE_ADDR : Nat := 0x10000000

/-- Compile-time constant from src/src/main.rs: `APP_BASE`. -/
def APP_BASE : Nat := FLASH_BASE_ADDR + APP_OFFSET

/-- Compile-time constant from src/src/main.rs: `METADATA_SIZE` (one 256-byte
flash program page). -/
def METADATA_SIZE : Nat := 256

/-- Compile-time constant from src/src/main.rs: `REAL_APP_BASE`. -/
def REAL_APP_BASE : Nat := APP_BASE + METADATA_SIZE

/-- The 4-byte magic tag `b"APPS"` from src/src/main.rs. -/
def MAGIC_APPS : List Nat := [0x41, 0x50, 0x50, 0x53]

/-- The erase granularity used by the rounding mask `& !4095` in
src/src/main.rs line 107 (the RP2350 flash erase sector size). -/
def ERASE_BLOCK : Nat := 4096

/-- One more than the largest `u32` value. -/
def U32 : Nat := 2 ^ 32

/-- Read one byte of memory, truncating like a `*const u8` dereference. -/
def readByte (mem : Nat → Nat) (a : Nat) : Nat := mem a % 256

/-- Read `n` consecutive bytes starting at `a`, like
`core::slice::from_raw_parts(a as *const u8, n)`. -/
def readBytes (mem : Nat → Nat) (a n : Nat) : List Nat :=
  (List.range n).map fun i => readByte mem (a + i)

/-- Read a little-endian 32-bit word at `a`, like a `*const u32` dereference
(or `u32::from_le_bytes` on four bytes). -/
def readWord (mem : Nat → Nat) (a : Nat) : Nat :=
  readByte mem a + 256 * readByte mem (a + 1) + 65536 * readByte mem (a + 2) +
    16777216 * readByte mem (a + 3)

/-- Overwrite the bytes `[a, a + bs.length)` of memory with `bs`. -/
def writeBytes (mem : Nat → Nat) (a : Nat) (bs : List Nat) : Nat → Nat :=
  fun x => if a ≤ x ∧ x < a + bs.length then bs.getD (x - a) 0 else mem x

/-- The little-endian byte decomposition of a 32-bit value, as produced by
`u32::to_le_bytes`. -/
def leBytes4 (n : Nat) : List Nat :=
  [n % 256, n / 256 % 256, n / 65536 % 256, n / 16777216 % 256]

/-- Modelled from the spec: one shift-and-conditional-xor step of the
reflected CRC-32/ISO-HDLC (zlib) algorithm, polynomial `0xEDB88320`.  The
source delegates this to the external `crc` crate
(`crc::Crc::<u32>::new(&crc::CRC_32_ISO_HDLC)`), which is not part of this
repository. -/
def crcStep (c : Nat) : Nat :=
  if c % 2 = 1 then c / 2 ^^^ 0xEDB88320 else c / 2

/-- Modelled from the spec: absorb one message byte into the running CRC
state (xor the byte in, then eight `crcStep`s). -/
def crcByte (c b : Nat) : Nat := crcStep^[8] (c ^^^ b % 256)

/-- Modelled from the spec: CRC-32/ISO-HDLC of a byte sequence, with initial
value `0xFFFFFFFF` and final xor `0xFFFFFFFF`. -/
def crc32 (bs : List Nat) : Nat :=
  bs.foldl crcByte 0xFFFFFFFF ^^^ 0xFFFFFFFF

/-- Modelled from the spec: reference formulation of the bit-at-a-time CRC
state update, written by explicit recursion on the bit count. -/
def crcBitsRef : Nat → Nat → Nat
  | 0, c => c
  | n + 1, c => crcBitsRef n (if c % 2 = 1 then c / 2 ^^^ 0xEDB88320 else c / 2)

/-- Modelled from the spec: reference CRC-32/ISO-HDLC main loop, written by
explicit recursion on the message. -/
def crc32RefGo : Nat → List Nat → Nat
  | c, [] => c
  | c, b :: rest => crc32RefGo (crcBitsRef 8 (c ^^^ b % 256)) rest

/-- Modelled from the spec: reference implementation of CRC-32/ISO-HDLC,
structured independently of `crc32`. -/
def crc32Ref (bs : List Nat) : Nat := crc32RefGo 0xFFFFFFFF bs ^^^ 0xFFFFFFFF

/-- Embedding of `verify_flash_crc` (src/src/main.rs lines 191-200): read
`len` bytes at `address` through the XIP mapping and compare their CRC-32
against `expected`. -/
def verify_flash_crc (mem : Nat → Nat) (address len expected : Nat) : Bool :=
  crc32 (readBytes mem address len) == expected

/-- Embedding of `is_app_healthy` (src/src/main.rs lines 171-189). -/
def is_app_healthy (mem : Nat → Nat) (address : Nat) : Bool :=
  if readBytes mem address 4 ≠ MAGIC_APPS then false
  else
    let len := readWord mem (address + 4)
    let expected_crc := readWord mem (address + 8)
    let sp := readWord mem (address + METADATA_SIZE)
    if sp < 0x20000000 ∨ 0x20082000 < sp then false
    else verify_flash_crc mem (address + METADATA_SIZE) len expected_crc

/-- Outcome of the launch sequencer: either the fatal infinite halt loop, or
the irreversible control transfer (`SCB.vtor.write(address)` followed by
`cortex_m::asm::bootstrap(sp, reset_handler)`). -/
inductive LaunchResult where
  | halt : LaunchResult
  | jump (vtor sp entry : Nat) : LaunchResult
deriving DecidableEq

/-- Embedding of `jump_to_app` (src/src/main.rs lines 202-219): read the
stack-pointer and entry words at `address`/`address + 4`, halt if
`sp < 0x20000000 || sp > 0x20082000 || reset_handler < 0x10000000`, and
otherwise transfer control. -/
def jump_to_app (mem : Nat → Nat) (address : Nat) : LaunchResult :=
  let sp := readWord mem address
  let reset_handler := readWord mem (address + 4)
  if sp < 0x20000000 ∨ 0x20082000 < sp ∨ reset_handler < 0x10000000 then
    LaunchResult.halt
  else
    LaunchResult.jump address sp reset_handler

/-- The wrapping `u32` erase-size computation from src/src/main.rs line 107:
`let total_erase = (len + METADATA_SIZE + 4095) & !4095;`. -/
def totalErase (len : Nat) : Nat :=
  ((len + METADATA_SIZE + 4095) % U32) &&& 0xFFFFF000

/-- The spec's `roundUpToEraseBlock`: round up to the next multiple of the
4096-byte erase block, in exact (non-wrapping) arithmetic.  Stated from the
spec's words for comparison against `totalErase`. -/
def roundUpToEraseBlock (n : Nat) : Nat := (n + 4095) / 4096 * 4096

/-- Result of the chunk-receive loop (src/src/main.rs lines 120-136):
bytes received so far, chunk acknowledgements sent, and flash state. -/
structure RecvOut where
  received : Nat
  acks : Nat
  mem : Nat → Nat

/-- Embedding of the receive loop `while received < len` in src/src/main.rs
lines 120-136.  `readFails i` / `writeFails i` tell whether the `i`-th UART
read or flash write fails; a successful read of `chunk` bytes consumes the
next `chunk` bytes of `stream`; a successful write persists them at
`REAL_APP_BASE + received` (flash offset `APP_OFFSET + METADATA_SIZE +
received` seen through the XIP mapping) and is acknowledged with one `0x06`
byte.  Either failure breaks out of the loop.  The `fuel` argument caps the
iteration count for structural recursion; since every iteration consumes at
least one byte, `fuel = len` always suffices. -/
def recvLoop (len : Nat) (readFails writeFails : Nat → Bool) :
    Nat → List Nat → Nat → Nat → Nat → (Nat → Nat) → RecvOut
  | 0, _stream, _i, received, acks, mem => ⟨received, acks, mem⟩
  | fuel + 1, stream, i, received, acks, mem =>
    if received < len then
      let chunk := min 4096 (len - received)
      if readFails i then ⟨received, acks, mem⟩
      else if writeFails i then ⟨received, acks, mem⟩
      else
        recvLoop len readFails writeFails fuel (stream.drop chunk) (i + 1)
          (received + chunk) (acks + 1)
          (writeBytes mem (REAL_APP_BASE + received) (stream.take chunk))
    else ⟨received, acks, mem⟩

/-- Erase the flash byte range `[from, to)` (device offsets), observed
through the XIP mapping: erased bytes read back as `0xFF`. -/
def eraseMem (mem : Nat → Nat) (lo hi : Nat) : Nat → Nat :=
  fun x => if FLASH_BASE_ADDR + lo ≤ x ∧ x < FLASH_BASE_ADDR + hi then 0xFF else mem x

/-- The metadata page image built in src/src/main.rs lines 142-145: magic,
little-endian length, little-endian CRC, zero padding to 256 bytes. -/
def metadataBytes (len crc : Nat) : List Nat :=
  MAGIC_APPS ++ leBytes4 len ++ leBytes4 crc ++ List.replicate 244 0

/-- Observable outcome of one update session (src/src/main.rs lines 102-159,
after the 8-byte header has been parsed): the `flash.erase` argument range,
whether the erase acknowledgement `0x06` was sent, how many chunk
acknowledgements were sent, bytes received, the metadata page image written
by `flash.write(APP_OFFset, ..)` if any, whether `SCB::sys_reset()` was
reached, and the final memory state.  `reset = false` means control falls
through to the boot path that calls `jump_to_app(REAL_APP_BASE)`. -/
structure DfuOut where
  eraseRange : Option (Nat × Nat)
  eraseAck : Bool
  chunkAcks : Nat
  received : Nat
  metadataWrite : Option (List Nat)
  reset : Bool
  mem : Nat → Nat

/-- Embedding of the update session body of `main` (src/src/main.rs lines
102-159) from the point where the header `{len, crc_val}` has been read.
`eraseOk` / `metaWriteOk` are the success of the `flash.erase` call and of
the final metadata `flash.write`; per-chunk faults are in `readFails` /
`writeFails`. -/
def dfuSession (len crcHeader : Nat) (stream : List Nat)
    (readFails writeFails : Nat → Bool) (eraseOk metaWriteOk : Bool)
    (mem0 : Nat → Nat) : DfuOut :=
  let te := totalErase len
  let eraseTo := (APP_OFFSET + te) % U32
  if eraseOk then
    let mem1 := eraseMem mem0 APP_OFFSET eraseTo
    let r := recvLoop len readFails writeFails len stream 0 0 0 mem1
    if r.received = len then
      if verify_flash_crc r.mem (APP_BASE + METADATA_SIZE) len crcHeader then
        if metaWriteOk then
          ⟨some (APP_OFFSET, eraseTo), true, r.acks, r.received,
            some (metadataBytes len crcHeader), true,
            writeBytes r.mem APP_BASE (metadataBytes len crcHeader)⟩
        else
          ⟨some (APP_OFFSET, eraseTo), true, r.acks, r.received, none, false, r.mem⟩
      else
        ⟨some (APP_OFFSET, eraseTo), true, r.acks, r.received, none, false, r.mem⟩
    else
      ⟨some (APP_OFFSET, eraseTo), true, r.acks, r.received, none, false, r.mem⟩
  else
    ⟨some (APP_OFFSET, eraseTo), false, 0, 0, none, false, mem0⟩

/-- Outcome of the 3-second wait window: enter update mode at elapsed time
`t`, or proceed to boot at elapsed time `t`. -/
inductive WaitResult where
  | update (t : Nat) : WaitResult
  | boot (t : Nat) : WaitResult
deriving DecidableEq

/-- Elapsed time at which the wait window ends. -/
def waitTime : WaitResult → Nat
  | WaitResult.update t => t
  | WaitResult.boot t => t

/-- Embedding of the healthy-path wait loop (src/src/main.rs lines 56-85).
Events are UART byte arrivals `(t, some c)` or failed reads `(t, none)`,
with `t` the elapsed time since `start_time` at which the read resolves.
Each iteration races `Timer::after(remaining)` — which fires at the original
absolute deadline, since `remaining = timeout - elapsed` — against the next
read: an event at `t ≥ timeout` means the timer wins and the loop breaks to
boot; `'u'` (117) or `'p'` (112) sets update mode and breaks; any other byte
or a failed read is discarded and the loop continues against the same
deadline. -/
def bootWait (timeout : Nat) : List (Nat × Option Nat) → WaitResult
  | [] => WaitResult.boot timeout
  | (t, b) :: rest =>
    if timeout ≤ t then WaitResult.boot timeout
    else
      match b with
      | some c =>
        if c = 117 ∨ c = 112 then WaitResult.update t else bootWait timeout rest
      | none => bootWait timeout rest

set_option maxRecDepth 4000

example : crc32 [] = 0 := by decide
example : crc32 [0x31, 0x32, 0x33, 0x34, 0x35, 0x36, 0x37, 0x38, 0x39] = 0xCBF43926 := by decide
example : totalErase 0 = 4096 := by decide
example : totalErase (U32 - 1) = 4096 := by decide
example : roundUpToEraseBlock (U32 - 1 + METADATA_SIZE) = U32 + 4096 := by decide

theorem crcBitsRef_eq_iterate (n : Nat) (c : Nat) : crcBitsRef n c = crcStep^[n] c := by
  induction n generalizing c with
  | zero => rfl
  | succ n ih =>
    rw [crcBitsRef, Function.iterate_succ_apply]
    exact ih (crcStep c)

theorem crc32RefGo_cons (c b : Nat) (rest : List Nat) :
    crc32RefGo c (b :: rest) = crc32RefGo (crcBitsRef 8 (c ^^^ b % 256)) rest := rfl

theorem crc32RefGo_eq_foldl (bs : List Nat) (c : Nat) :
    crc32RefGo c bs = bs.foldl crcByte c := by
  induction bs generalizing c with
  | nil => rfl
  | cons b rest ih =>
    rw [crc32RefGo_cons, crcBitsRef_eq_iterate, List.foldl_cons, crcByte]
    exact ih _

/-- C8: for every byte sequence the checksum function is deterministic and
agrees with an independently structured reference implementation of
CRC-32/ISO-HDLC; on the standard reference input "123456789" it yields the
published ISO-HDLC check value 0xCBF43926; and `verify_flash_crc` accepts
exactly the checksum it recomputes. -/
theorem claim_C8 (bs : List Nat) :
    crc32 bs = crc32 bs ∧
    crc32 bs = crc32Ref bs ∧
    crc32 [0x31, 0x32, 0x33, 0x34, 0x35, 0x36, 0x37, 0x38, 0x39] = 0xCBF43926 ∧
    ∀ mem address len, verify_flash_crc mem address len (crc32 (readBytes mem address len)) = true := by
  refine ⟨rfl, ?_, by decide, ?_⟩
  · rw [crc32, crc32Ref, crc32RefGo_eq_foldl]
  · intro mem address len
    simp [verify_flash_crc]

/-- C1 counterexample: an image whose stack-pointer word is the valid
0x20000000 but whose entry word is 0xFFFFFFF0 — far above the upper end of
any flash window on this device (the whole XIP space ends at 0x20000000) —
is nevertheless jumped to, not halted: `jump_to_app` checks only the lower
bound `reset_handler < 0x10000000`. -/
theorem claim_C1_counterexample :
    jump_to_app
        (writeBytes (fun _ => 0) REAL_APP_BASE [0, 0, 0, 0x20, 0xF0, 0xFF, 0xFF, 0xFF])
        REAL_APP_BASE =
      LaunchResult.jump REAL_APP_BASE 0x20000000 0xFFFFFFF0 ∧
    FLASH_BASE_ADDR + 0x10000000 ≤ 0xFFFFFFF0 := by
  constructor
  · decide
  · decide

/-- C1 (amended): `jump_to_app` halts exactly when the stack-pointer word is
outside the RAM window [0x20000000, 0x20082000] or the entry word is below
the flash window's lower bound 0x10000000; no upper bound on the entry
address is checked.  Otherwise it irrevocably jumps with the image's stack
pointer and entry address, with the vector table rebased to `address`. -/
theorem claim_C1 (mem : Nat → Nat) (address : Nat) :
    (jump_to_app mem address = LaunchResult.halt ↔
      readWord mem address < 0x20000000 ∨ 0x20082000 < readWord mem address ∨
        readWord mem (address + 4) < 0x10000000) ∧
    (jump_to_app mem address = LaunchResult.halt ∨
      jump_to_app mem address =
        LaunchResult.jump address (readWord mem address) (readWord mem (address + 4))) := by
  by_cases h : readWord mem address < 0x20000000 ∨ 0x20082000 < readWord mem address ∨
      readWord mem (address + 4) < 0x10000000
  · exact ⟨by simp [jump_to_app, h], Or.inl (by simp [jump_to_app, h])⟩
  · exact ⟨by simp [jump_to_app, h], Or.inr (by simp [jump_to_app, h])⟩

/-- C2: whenever the recorded stack-pointer word (first little-endian 32-bit
word at the application base) lies outside the RAM window
[0x20000000, 0x20082000], `jump_to_app` halts and the control-transfer step
is unreachable. -/
theorem claim_C2 (mem : Nat → Nat) (address : Nat)
    (h : readWord mem address < 0x20000000 ∨ 0x20082000 < readWord mem address) :
    jump_to_app mem address = LaunchResult.halt := by
  unfold jump_to_app
  rcases h with h | h
  · rw [if_pos (Or.inl h)]
  · rw [if_pos (Or.inr (Or.inl h))]

/-- C2 witness: the all-zero image has stack-pointer word 0, below the RAM
window, and is halted. -/
theorem claim_C2_witness : jump_to_app (fun _ => 0) REAL_APP_BASE = LaunchResult.halt :=
  claim_C2 (fun _ => 0) REAL_APP_BASE (Or.inl (by decide))

/-- C7: during the healthy-boot wait window, a byte equal to 'u' (117) or
'p' (112) arriving before the deadline enters update mode immediately; any
other byte (and any failed read) is discarded and the wait continues against
the original deadline; and for every event sequence the window ends no later
than `timeout` after it started (in `main` the timeout is 3 seconds). -/
theorem claim_C7 :
    (∀ timeout events, waitTime (bootWait timeout events) ≤ timeout) ∧
    (∀ timeout t c events, t < timeout → c ≠ 117 → c ≠ 112 →
      bootWait timeout ((t, some c) :: events) = bootWait timeout events) ∧
    (∀ timeout t events, t < timeout →
      bootWait timeout ((t, none) :: events) = bootWait timeout events) ∧
    (∀ timeout t c events, t < timeout → (c = 117 ∨ c = 112) →
      bootWait timeout ((t, some c) :: events) = WaitResult.update t) := by
  refine ⟨?_, ?_, ?_, ?_⟩
  · intro timeout events
    induction events with
    | nil => simp [bootWait, waitTime]
    | cons e rest ih =>
      obtain ⟨t, b⟩ := e
      by_cases ht : timeout ≤ t
      · simp [bootWait, ht, waitTime]
      · cases b with
        | none => simpa [bootWait, ht] using ih
        | some c =>
          by_cases hc : c = 117 ∨ c = 112
          · simp [bootWait, ht, hc, waitTime]
            omega
          · simpa [bootWait, ht, hc] using ih
  · intro timeout t c events ht hc1 hc2
    simp [bootWait, Nat.not_le.mpr ht, hc1, hc2]
  · intro timeout t events ht
    simp [bootWait, Nat.not_le.mpr ht]
  · intro timeout t c events ht hc
    simp [bootWait, Nat.not_le.mpr ht, hc]

/-- C7 witness: with a 3-second window, a stray 'x' (120) at time 1 is
discarded without extending the deadline, while a 'u' at time 1 enters
update mode at time 1; the window always ends by the deadline. -/
theorem claim_C7_witness :
    waitTime (bootWait 3 [(1, some 120)]) ≤ 3 ∧
    bootWait 3 [(1, some 120)] = bootWait 3 [] ∧
    bootWait 3 [(1, some 117)] = WaitResult.update 1 := by
  refine ⟨claim_C7.1 3 [(1, some 120)], ?_, ?_⟩
  · exact claim_C7.2.1 3 1 120 [] (by decide) (by decide) (by decide)
  · exact claim_C7.2.2.2 3 1 117 [] (by decide) (Or.inl rfl)

/-- C9 counterexample: `METADATA_SIZE` (the metadata "page", 256 bytes) is
not a multiple of the 4096-byte erase granularity — it is smaller than one
erase block — so the metadata page is not "exactly one erase-page in size"
and is not erase-block aligned as a size. -/
theorem claim_C9_counterexample :
    METADATA_SIZE % ERASE_BLOCK ≠ 0 ∧ METADATA_SIZE < ERASE_BLOCK := by
  decide

/-- C9 (amended): the metadata page [APP_OFFSET, APP_OFFSET+256) is exactly
one 256-byte flash program page, not an erase page; APP_OFFSET is
erase-block aligned, but METADATA_SIZE is not a multiple of (indeed is
smaller than) the erase granularity, and the erase rounding consequently
always erases the metadata page together with the application region —
already for length 0 it erases one full 4096-byte block. -/
theorem claim_C9 :
    METADATA_SIZE = 256 ∧
    APP_OFFSET % ERASE_BLOCK = 0 ∧
    METADATA_SIZE % ERASE_BLOCK ≠ 0 ∧
    METADATA_SIZE < ERASE_BLOCK ∧
    totalErase 0 = ERASE_BLOCK ∧
    APP_BASE = FLASH_BASE_ADDR + APP_OFFSET ∧
    REAL_APP_BASE = APP_BASE + METADATA_SIZE := by
  decide

/-- C10: the update path computes the erase size with wrapping 32-bit
arithmetic and issues the erase for every 32-bit header length without any
capacity check; whenever `len + METADATA_SIZE + 4095` reaches `2^32` the
computed erase size wraps and is strictly smaller than the declared payload
length, so the erased range cannot cover the declared payload. -/
theorem claim_C10 (len crcHeader : Nat) (stream : List Nat)
    (readFails writeFails : Nat → Bool) (metaWriteOk : Bool) (mem0 : Nat → Nat)
    (hlen : len < U32) :
    (dfuSession len crcHeader stream readFails writeFails true metaWriteOk mem0).eraseRange =
      some (APP_OFFSET, (APP_OFFSET + totalErase len) % U32) ∧
    (U32 ≤ len + METADATA_SIZE + 4095 → totalErase len < len) := by
  constructor
  · unfold dfuSession
    dsimp only
    repeat' split
    all_goals rfl
  · intro hwrap
    have hU : U32 = 4294967296 := by norm_num [U32]
    have hM : METADATA_SIZE = 256 := rfl
    have hmod : (len + METADATA_SIZE + 4095) % U32 = len + METADATA_SIZE + 4095 - U32 := by
      rw [Nat.mod_eq_sub_mod hwrap, Nat.mod_eq_of_lt (by omega)]
    have hle : totalErase len ≤ (len + METADATA_SIZE + 4095) % U32 := Nat.and_le_left
    rw [hmod] at hle
    omega

/-- C10 witness: at the maximal header length `2^32 - 1` the computed erase
size is 4096, far smaller than the declared payload. -/
theorem claim_C10_witness :
    (dfuSession (U32 - 1) 0 [] (fun _ => true) (fun _ => true) true true
        fun _ => 0).eraseRange =
      some (APP_OFFSET, (APP_OFFSET + totalErase (U32 - 1)) % U32) ∧
    totalErase (U32 - 1) < U32 - 1 := by
  have h := claim_C10 (U32 - 1) 0 [] (fun _ => true) (fun _ => true) true
    (fun _ => 0) (by decide)
  exact ⟨h.1, h.2 (by decide)⟩

/-- A concrete healthy flash image: magic "APPS", length 0, checksum 0
(the CRC-32 of the empty payload), stack-pointer word 0x20000000. -/
def healthyMem : Nat → Nat := fun x =>
  if x = APP_BASE then 0x41
  else if x = APP_BASE + 1 then 0x50
  else if x = APP_BASE + 2 then 0x50
  else if x = APP_BASE + 3 then 0x53
  else if x = APP_BASE + 259 then 0x20
  else 0

/-- C3: `is_app_healthy` at the metadata base returns false on a magic-tag
mismatch regardless of the other fields; with the magic intact it returns
false when the stack-pointer word just after the metadata page lies outside
the RAM window; and otherwise it returns true exactly when the CRC-32 of
the `length` bytes starting at the application region start equals the
stored checksum. -/
theorem claim_C3 (mem : Nat → Nat) :
    (readBytes mem APP_BASE 4 ≠ MAGIC_APPS → is_app_healthy mem APP_BASE = false) ∧
    (readBytes mem APP_BASE 4 = MAGIC_APPS →
      (readWord mem (APP_BASE + METADATA_SIZE) < 0x20000000 ∨
        0x20082000 < readWord mem (APP_BASE + METADATA_SIZE)) →
      is_app_healthy mem APP_BASE = false) ∧
    (readBytes mem APP_BASE 4 = MAGIC_APPS →
      0x20000000 ≤ readWord mem (APP_BASE + METADATA_SIZE) →
      readWord mem (APP_BASE + METADATA_SIZE) ≤ 0x20082000 →
      (is_app_healthy mem APP_BASE = true ↔
        crc32 (readBytes mem REAL_APP_BASE (readWord mem (APP_BASE + 4))) =
          readWord mem (APP_BASE + 8))) := by
  refine ⟨?_, ?_, ?_⟩
  · intro h
    simp [is_app_healthy, h]
  · intro hm hsp
    simp [is_app_healthy, hm, hsp]
  · intro hm h1 h2
    have hsp : ¬(readWord mem (APP_BASE + METADATA_SIZE) < 0x20000000 ∨
        0x20082000 < readWord mem (APP_BASE + METADATA_SIZE)) := by omega
    simp [is_app_healthy, hm, hsp, verify_flash_crc, REAL_APP_BASE, beq_iff_eq]

/-- C3 witness: the concrete image `healthyMem` (valid magic, zero length,
checksum of the empty payload, in-window stack pointer) is healthy. -/
theorem claim_C3_witness : is_app_healthy healthyMem APP_BASE = true :=
  ((claim_C3 healthyMem).2.2 (by decide) (by decide) (by decide)).mpr (by decide)

theorem and_mask_4096 (x : Nat) (hx : x < 2 ^ 32) :
    x &&& 0xFFFFF000 = x / 4096 * 4096 := by
  have hmask : (0xFFFFF000 : Nat) = (2 ^ 20 - 1) <<< 12 := by
    rw [Nat.shiftLeft_eq]
    norm_num
  have hdiv : x / 4096 * 4096 = x >>> 12 <<< 12 := by
    rw [Nat.shiftRight_eq_div_pow, Nat.shiftLeft_eq]
  apply Nat.eq_of_testBit_eq
  intro i
  rw [Nat.testBit_and, hmask, hdiv, Nat.testBit_shiftLeft, Nat.testBit_shiftLeft,
    Nat.testBit_shiftRight, Nat.testBit_two_pow_sub_one]
  rcases Nat.lt_or_ge i 12 with h12 | h12
  · simp [Nat.not_le.mpr h12]
  · have hi : 12 + (i - 12) = i := by omega
    rcases Nat.lt_or_ge i 32 with h32 | h32
    · simp [h12, hi, show i - 12 < 20 by omega]
    · have hbit : x.testBit i = false :=
        Nat.testBit_lt_two_pow (lt_of_lt_of_le hx (Nat.pow_le_pow_right (by norm_num) h32))
      simp [h12, hi, hbit, show ¬(i - 12 < 20) by omega]

theorem totalErase_eq_roundUp (len : Nat) (h : len + METADATA_SIZE + 4095 < U32) :
    totalErase len = roundUpToEraseBlock (len + METADATA_SIZE) := by
  have hU : U32 = 2 ^ 32 := rfl
  rw [totalErase, Nat.mod_eq_of_lt h, and_mask_4096 _ (hU ▸ h), roundUpToEraseBlock]

theorem dfuSession_eraseRange (len crcHeader : Nat) (stream : List Nat)
    (readFails writeFails : Nat → Bool) (eraseOk metaWriteOk : Bool) (mem0 : Nat → Nat) :
    (dfuSession len crcHeader stream readFails writeFails eraseOk metaWriteOk mem0).eraseRange =
      some (APP_OFFSET, (APP_OFFSET + totalErase len) % U32) := by
  unfold dfuSession
  dsimp only
  repeat' split
  all_goals rfl

/-- C5 counterexample: at header length `2^32 - 1` the wrapping erase-size
computation erases only `[APP_OFFSET, APP_OFFSET + 4096)`, not the claimed
`[APP_OFFSET, APP_OFFSET + roundUpToEraseBlock(len + METADATA_SIZE))`. -/
theorem claim_C5_counterexample :
    (dfuSession (U32 - 1) 0 [] (fun _ => true) (fun _ => true) true true
        fun _ => 0).eraseRange =
      some (APP_OFFSET, APP_OFFSET + ERASE_BLOCK) ∧
    APP_OFFSET + ERASE_BLOCK ≠
      APP_OFFSET + roundUpToEraseBlock (U32 - 1 + METADATA_SIZE) := by
  constructor
  · rfl
  · decide

/-- C5 (amended): for every header length with
`len + METADATA_SIZE + APP_OFFSET + 4095 < 2^32` (so that neither the
wrapping add in the erase-size computation nor the erase-range end wraps),
the erased range is exactly `[APP_OFFSET, APP_OFFSET +
roundUpToEraseBlock(len + METADATA_SIZE))`, covering the metadata page and
application region in one operation; the acknowledgement byte 0x06 is sent
exactly when the erase succeeds (never on a failed erase); and for
`len = 0` with the empty payload's checksum exactly one minimum erase block
is erased, no chunk is received or acknowledged, verification passes
trivially, the metadata record is committed, and the device resets. -/
theorem claim_C5 :
    (∀ len crcHeader stream readFails writeFails metaWriteOk mem0,
      len + METADATA_SIZE + APP_OFFSET + 4095 < U32 →
      (dfuSession len crcHeader stream readFails writeFails true metaWriteOk
          mem0).eraseRange =
        some (APP_OFFSET, APP_OFFSET + roundUpToEraseBlock (len + METADATA_SIZE))) ∧
    (∀ len crcHeader stream readFails writeFails metaWriteOk mem0,
      (dfuSession len crcHeader stream readFails writeFails false metaWriteOk
          mem0).eraseAck = false) ∧
    (∀ len crcHeader stream readFails writeFails metaWriteOk mem0,
      (dfuSession len crcHeader stream readFails writeFails true metaWriteOk
          mem0).eraseAck = true) ∧
    (∀ readFails writeFails mem0,
      (dfuSession 0 (crc32 []) [] readFails writeFails true true mem0).eraseRange =
          some (APP_OFFSET, APP_OFFSET + ERASE_BLOCK) ∧
        (dfuSession 0 (crc32 []) [] readFails writeFails true true mem0).received = 0 ∧
        (dfuSession 0 (crc32 []) [] readFails writeFails true true mem0).chunkAcks = 0 ∧
        (dfuSession 0 (crc32 []) [] readFails writeFails true true mem0).metadataWrite =
          some (metadataBytes 0 (crc32 [])) ∧
        (dfuSession 0 (crc32 []) [] readFails writeFails true true mem0).reset = true) := by
  refine ⟨?_, ?_, ?_, ?_⟩
  · intro len crcHeader stream readFails writeFails metaWriteOk mem0 h
    have hM : METADATA_SIZE = 256 := rfl
    have hA : APP_OFFSET = 65536 := rfl
    have hU : U32 = 4294967296 := by norm_num [U32]
    rw [dfuSession_eraseRange, totalErase_eq_roundUp len (by omega)]
    have hle : roundUpToEraseBlock (len + METADATA_SIZE) ≤ len + METADATA_SIZE + 4095 :=
      Nat.div_mul_le_self _ _
    rw [Nat.mod_eq_of_lt (by omega)]
  · intro len crcHeader stream readFails writeFails metaWriteOk mem0
    rfl
  · intro len crcHeader stream readFails writeFails metaWriteOk mem0
    unfold dfuSession
    dsimp only
    repeat' split
    all_goals try rfl
    all_goals simp_all
  · intro readFails writeFails mem0
    have e3 : (APP_OFFSET + totalErase 0) % U32 = APP_OFFSET + ERASE_BLOCK := by decide
    have e2 : verify_flash_crc (eraseMem mem0 APP_OFFSET (APP_OFFSET + ERASE_BLOCK))
        (APP_BASE + METADATA_SIZE) 0 (crc32 []) = true := by
      rw [verify_flash_crc,
        show readBytes (eraseMem mem0 APP_OFFSET (APP_OFFSET + ERASE_BLOCK))
          (APP_BASE + METADATA_SIZE) 0 = [] from rfl]
      simp
    refine ⟨?_, ?_, ?_, ?_, ?_⟩ <;> simp [dfuSession, recvLoop, e2, e3]

/-- C5 witness: for the in-range header length 4096 the erased range is
exactly one metadata page plus one payload block, rounded to erase blocks. -/
theorem claim_C5_witness :
    (dfuSession 4096 0 [] (fun _ => true) (fun _ => true) true true
        fun _ => 0).eraseRange =
      some (APP_OFFSET, APP_OFFSET + roundUpToEraseBlock (4096 + METADATA_SIZE)) :=
  claim_C5.1 4096 0 [] (fun _ => true) (fun _ => true) true (fun _ => 0) (by decide)

theorem recvLoop_zero (len : Nat) (rf wf : Nat → Bool) (stream : List Nat)
    (i received acks : Nat) (mem : Nat → Nat) :
    recvLoop len rf wf 0 stream i received acks mem = ⟨received, acks, mem⟩ := rfl

theorem recvLoop_succ (len : Nat) (rf wf : Nat → Bool) (fuel : Nat) (stream : List Nat)
    (i received acks : Nat) (mem : Nat → Nat) :
    recvLoop len rf wf (fuel + 1) stream i received acks mem =
      if received < len then
        if rf i then ⟨received, acks, mem⟩
        else if wf i then ⟨received, acks, mem⟩
        else
          recvLoop len rf wf fuel (stream.drop (min 4096 (len - received))) (i + 1)
            (received + min 4096 (len - received)) (acks + 1)
            (writeBytes mem (REAL_APP_BASE + received)
              (stream.take (min 4096 (len - received))))
      else ⟨received, acks, mem⟩ := rfl

theorem recvLoop_of_not_lt (len : Nat) (rf wf : Nat → Bool) (fuel : Nat) (stream : List Nat)
    (i received acks : Nat) (mem : Nat → Nat) (h : ¬received < len) :
    recvLoop len rf wf fuel stream i received acks mem = ⟨received, acks, mem⟩ := by
  cases fuel with
  | zero => rfl
  | succ fuel => rw [recvLoop_succ, if_neg h]

theorem recvLoop_abort (len : Nat) (rf wf : Nat → Bool) (fuel : Nat) :
    ∀ stream i received acks mem,
      acks * 4096 = received → received ≤ len →
      (recvLoop len rf wf fuel stream i received acks mem).received = len ∨
        ((recvLoop len rf wf fuel stream i received acks mem).acks * 4096 =
            (recvLoop len rf wf fuel stream i received acks mem).received ∧
          (recvLoop len rf wf fuel stream i received acks mem).received ≤ len) := by
  induction fuel with
  | zero =>
    intro stream i received acks mem ha hr
    rw [recvLoop_zero]
    exact Or.inr ⟨ha, hr⟩
  | succ fuel ih =>
    intro stream i received acks mem ha hr
    by_cases hlt : received < len
    · rw [recvLoop_succ, if_pos hlt]
      by_cases hread : rf i = true
      · rw [if_pos hread]
        exact Or.inr ⟨ha, hr⟩
      · rw [if_neg hread]
        by_cases hw : wf i = true
        · rw [if_pos hw]
          exact Or.inr ⟨ha, hr⟩
        · rw [if_neg hw]
          rcases Nat.lt_or_ge (len - received) 4096 with hsm | hbig
          · have hchunk : min 4096 (len - received) = len - received := by omega
            rw [hchunk, recvLoop_of_not_lt _ _ _ _ _ _ _ _ _
              (by omega : ¬received + (len - received) < len)]
            exact Or.inl (by dsimp only; omega)
          · have hchunk : min 4096 (len - received) = 4096 := by omega
            rw [hchunk]
            exact ih _ _ _ _ _ (by omega) (by omega)
    · rw [recvLoop_of_not_lt _ _ _ _ _ _ _ _ _ hlt]
      exact Or.inr ⟨ha, hr⟩

theorem dfuSession_received (len crcHeader : Nat) (stream : List Nat)
    (rf wf : Nat → Bool) (metaWriteOk : Bool) (mem0 : Nat → Nat) :
    (dfuSession len crcHeader stream rf wf true metaWriteOk mem0).received =
      (recvLoop len rf wf len stream 0 0 0
        (eraseMem mem0 APP_OFFSET ((APP_OFFSET + totalErase len) % U32))).received := by
  unfold dfuSession
  dsimp only
  repeat' split
  all_goals try rfl
  all_goals simp_all

theorem dfuSession_chunkAcks (len crcHeader : Nat) (stream : List Nat)
    (rf wf : Nat → Bool) (metaWriteOk : Bool) (mem0 : Nat → Nat) :
    (dfuSession len crcHeader stream rf wf true metaWriteOk mem0).chunkAcks =
      (recvLoop len rf wf len stream 0 0 0
        (eraseMem mem0 APP_OFFSET ((APP_OFFSET + totalErase len) % U32))).acks := by
  unfold dfuSession
  dsimp only
  repeat' split
  all_goals try rfl
  all_goals simp_all

theorem dfuSession_abort (len crcHeader : Nat) (stream : List Nat)
    (rf wf : Nat → Bool) (metaWriteOk : Bool) (mem0 : Nat → Nat)
    (h : (recvLoop len rf wf len stream 0 0 0
        (eraseMem mem0 APP_OFFSET ((APP_OFFSET + totalErase len) % U32))).received ≠ len) :
    (dfuSession len crcHeader stream rf wf true metaWriteOk mem0).metadataWrite = none ∧
      (dfuSession len crcHeader stream rf wf true metaWriteOk mem0).reset = false := by
  unfold dfuSession
  dsimp only
  rw [if_neg h]
  exact ⟨rfl, rfl⟩

/-- C4: if any transport read or flash write fails during the receive phase
(so the loop stops before `received` reaches the header length), the session
aborts: the metadata page is never programmed, no reset is triggered
(control falls through to the boot path that jumps to whatever image is
present), and no acknowledgement is sent for the failed chunk — every
acknowledgement corresponds to a fully persisted 4096-byte chunk. -/
theorem claim_C4 (len crcHeader : Nat) (stream : List Nat)
    (readFails writeFails : Nat → Bool) (metaWriteOk : Bool) (mem0 : Nat → Nat)
    (habort : (dfuSession len crcHeader stream readFails writeFails true metaWriteOk
        mem0).received ≠ len) :
    (dfuSession len crcHeader stream readFails writeFails true metaWriteOk
        mem0).metadataWrite = none ∧
    (dfuSession len crcHeader stream readFails writeFails true metaWriteOk
        mem0).reset = false ∧
    (dfuSession len crcHeader stream readFails writeFails true metaWriteOk
        mem0).chunkAcks * 4096 =
      (dfuSession len crcHeader stream readFails writeFails true metaWriteOk
        mem0).received := by
  have hrec : (recvLoop len readFails writeFails len stream 0 0 0
      (eraseMem mem0 APP_OFFSET ((APP_OFFSET + totalErase len) % U32))).received ≠ len := by
    rw [dfuSession_received] at habort
    exact habort
  obtain ⟨h1, h2⟩ :=
    dfuSession_abort len crcHeader stream readFails writeFails metaWriteOk mem0 hrec
  refine ⟨h1, h2, ?_⟩
  rw [dfuSession_chunkAcks, dfuSession_received]
  rcases recvLoop_abort len readFails writeFails len stream 0 0 0 _ (by simp)
    (Nat.zero_le len) with h | h
  · exact absurd h hrec
  · exact h.1

/-- C4 witness (protocol scenario B): header length 8192, first chunk
persisted, second transport read fails — one chunk-ack, no metadata, no
reset. -/
theorem claim_C4_witness :
    (dfuSession 8192 0 (List.replicate 4096 0) (fun i => i != 0) (fun _ => false) true true
        fun _ => 0).metadataWrite = none ∧
    (dfuSession 8192 0 (List.replicate 4096 0) (fun i => i != 0) (fun _ => false) true true
        fun _ => 0).reset = false ∧
    (dfuSession 8192 0 (List.replicate 4096 0) (fun i => i != 0) (fun _ => false) true true
        fun _ => 0).chunkAcks * 4096 =
      (dfuSession 8192 0 (List.replicate 4096 0) (fun i => i != 0) (fun _ => false) true true
        fun _ => 0).received :=
  claim_C4 8192 0 (List.replicate 4096 0) (fun i => i != 0) (fun _ => false) true
    (fun _ => 0) (by decide)

theorem getD_take (l : List Nat) (n j : Nat) (h : j < n) :
    (l.take n).getD j 0 = l.getD j 0 := by
  simp [List.getD_eq_getElem?_getD, List.getElem?_take_of_lt h]

theorem getD_drop (l : List Nat) (n j : Nat) :
    (l.drop n).getD j 0 = l.getD (n + j) 0 := by
  simp [List.getD_eq_getElem?_getD, List.getElem?_drop]

theorem writeBytes_below (mem : Nat → Nat) (a : Nat) (bs : List Nat) (x : Nat)
    (h : x < a) : writeBytes mem a bs x = mem x := by
  unfold writeBytes
  rw [if_neg (by omega)]

theorem writeBytes_at (mem : Nat → Nat) (a : Nat) (bs : List Nat) (j : Nat)
    (h : j < bs.length) : writeBytes mem a bs (a + j) = bs.getD j 0 := by
  unfold writeBytes
  rw [if_pos (by omega)]
  congr 1
  omega

theorem recvLoop_complete (len : Nat) (rf wf : Nat → Bool)
    (hrf : ∀ j, rf j = false) (hwf : ∀ j, wf j = false) (fuel : Nat) :
    ∀ stream i received acks mem,
      len - received ≤ fuel → received ≤ len → stream.length = len - received →
      (recvLoop len rf wf fuel stream i received acks mem).received = len ∧
        (recvLoop len rf wf fuel stream i received acks mem).acks =
          acks + (len - received + 4095) / 4096 ∧
        (∀ j, j < len - received →
          (recvLoop len rf wf fuel stream i received acks mem).mem
            (REAL_APP_BASE + received + j) = stream.getD j 0) ∧
        (∀ a, a < REAL_APP_BASE + received →
          (recvLoop len rf wf fuel stream i received acks mem).mem a = mem a) := by
  induction fuel with
  | zero =>
    intro stream i received acks mem hf hr hs
    rw [recvLoop_zero]
    refine ⟨by dsimp only; omega, by dsimp only; omega, ?_, fun a _ => rfl⟩
    intro j hj
    omega
  | succ fuel ih =>
    intro stream i received acks mem hf hr hs
    by_cases hlt : received < len
    · rw [recvLoop_succ, if_pos hlt,
        if_neg (show ¬rf i = true by simp [hrf i]),
        if_neg (show ¬wf i = true by simp [hwf i])]
      have hchle : min 4096 (len - received) ≤ len - received := Nat.min_le_right _ _
      have hchpos : 0 < min 4096 (len - received) := by
        apply Nat.lt_min.mpr
        omega
      have hlentake : (stream.take (min 4096 (len - received))).length =
          min 4096 (len - received) := by
        simp [List.length_take]
        omega
      obtain ⟨ih1, ih2, ih3, ih4⟩ := ih (stream.drop (min 4096 (len - received))) (i + 1)
        (received + min 4096 (len - received)) (acks + 1)
        (writeBytes mem (REAL_APP_BASE + received)
          (stream.take (min 4096 (len - received))))
        (by omega) (by omega) (by simp [List.length_drop, hs]; omega)
      refine ⟨ih1, ?_, ?_, ?_⟩
      · rw [ih2]
        rcases Nat.lt_or_ge (len - received) 4096 with h4 | h4
        · have hc : min 4096 (len - received) = len - received := by omega
          rw [hc]
          omega
        · have hc : min 4096 (len - received) = 4096 := by omega
          rw [hc]
          omega
      · intro j hj
        by_cases hjc : j < min 4096 (len - received)
        · have haddr : REAL_APP_BASE + received + j <
              REAL_APP_BASE + (received + min 4096 (len - received)) := by omega
          rw [ih4 _ haddr,
            show REAL_APP_BASE + received + j = (REAL_APP_BASE + received) + j from rfl,
            writeBytes_at mem (REAL_APP_BASE + received) _ j (by omega)]
          exact getD_take stream _ j hjc
        · have haddr : REAL_APP_BASE + received + j =
              REAL_APP_BASE + (received + min 4096 (len - received)) +
                (j - min 4096 (len - received)) := by omega
          rw [haddr, ih3 (j - min 4096 (len - received)) (by omega), getD_drop]
          congr 1
          omega
      · intro a ha
        rw [ih4 a (by omega)]
        exact writeBytes_below _ _ _ _ (by omega)
    · rw [recvLoop_of_not_lt _ _ _ _ _ _ _ _ _ hlt]
      refine ⟨by dsimp only; omega, by dsimp only; omega, ?_, fun a _ => rfl⟩
      intro j hj
      omega

theorem crcStep_lt (c : Nat) (h : c < 2 ^ 32) : crcStep c < 2 ^ 32 := by
  unfold crcStep
  split
  · exact Nat.xor_lt_two_pow (by omega) (by norm_num)
  · omega

theorem iterate_crcStep_lt (n : Nat) : ∀ c, c < 2 ^ 32 → crcStep^[n] c < 2 ^ 32 := by
  induction n with
  | zero => intro c h; simpa using h
  | succ n ih =>
    intro c h
    rw [Function.iterate_succ_apply]
    exact ih _ (crcStep_lt c h)

theorem crcByte_lt (c b : Nat) (h : c < 2 ^ 32) : crcByte c b < 2 ^ 32 :=
  iterate_crcStep_lt 8 _ (Nat.xor_lt_two_pow h (lt_of_lt_of_le (Nat.mod_lt b (by norm_num))
    (by norm_num)))

theorem crc32_lt (bs : List Nat) : crc32 bs < 2 ^ 32 := by
  have hfold : ∀ l (c : Nat), c < 2 ^ 32 → List.foldl crcByte c l < 2 ^ 32 := by
    intro l
    induction l with
    | nil => intro c h; simpa using h
    | cons b rest ih =>
      intro c h
      rw [List.foldl_cons]
      exact ih _ (crcByte_lt c b h)
  exact Nat.xor_lt_two_pow (hfold bs _ (by norm_num)) (by norm_num)

theorem dfuSession_success (len crcHeader : Nat) (stream : List Nat)
    (rf wf : Nat → Bool) (mem0 : Nat → Nat)
    (h1 : (recvLoop len rf wf len stream 0 0 0
        (eraseMem mem0 APP_OFFSET ((APP_OFFSET + totalErase len) % U32))).received = len)
    (h2 : verify_flash_crc
        (recvLoop len rf wf len stream 0 0 0
          (eraseMem mem0 APP_OFFSET ((APP_OFFSET + totalErase len) % U32))).mem
        (APP_BASE + METADATA_SIZE) len crcHeader = true) :
    (dfuSession len crcHeader stream rf wf true true mem0).metadataWrite =
        some (metadataBytes len crcHeader) ∧
      (dfuSession len crcHeader stream rf wf true true mem0).reset = true := by
  unfold dfuSession
  dsimp only
  rw [if_pos h1, if_pos h2]
  exact ⟨rfl, rfl⟩

/-- C6: a complete fault-free transfer of a non-empty payload whose CRC-32
matches the header checksum sends exactly `ceil(len/4096)` chunk
acknowledgements, then programs a metadata record whose first four bytes are
the magic tag, whose little-endian length field decodes to `len`, and whose
little-endian checksum field decodes to the CRC-32 of the transferred
bytes, and resets. -/
theorem claim_C6 (len crcHeader : Nat) (stream : List Nat) (mem0 : Nat → Nat)
    (hne : len ≠ 0) (hlen : len < U32) (hstream : stream.length = len)
    (hbytes : ∀ b ∈ stream, b < 256) (hcrc : crcHeader = crc32 stream) :
    (dfuSession len crcHeader stream (fun _ => false) (fun _ => false) true true
        mem0).chunkAcks = (len + 4095) / 4096 ∧
    (dfuSession len crcHeader stream (fun _ => false) (fun _ => false) true true
        mem0).received = len ∧
    (dfuSession len crcHeader stream (fun _ => false) (fun _ => false) true true
        mem0).metadataWrite = some (metadataBytes len crcHeader) ∧
    (dfuSession len crcHeader stream (fun _ => false) (fun _ => false) true true
        mem0).reset = true ∧
    (metadataBytes len crcHeader).take 4 = MAGIC_APPS ∧
    (metadataBytes len crcHeader).getD 4 0 + 256 * (metadataBytes len crcHeader).getD 5 0 +
        65536 * (metadataBytes len crcHeader).getD 6 0 +
        16777216 * (metadataBytes len crcHeader).getD 7 0 = len ∧
    (metadataBytes len crcHeader).getD 8 0 + 256 * (metadataBytes len crcHeader).getD 9 0 +
        65536 * (metadataBytes len crcHeader).getD 10 0 +
        16777216 * (metadataBytes len crcHeader).getD 11 0 = crc32 stream := by
  obtain ⟨r1, r2, r3, r4⟩ := recvLoop_complete len (fun _ => false) (fun _ => false)
    (fun _ => rfl) (fun _ => rfl) len stream 0 0 0
    (eraseMem mem0 APP_OFFSET ((APP_OFFSET + totalErase len) % U32))
    (by omega) (Nat.zero_le len) (by omega)
  have hread : readBytes
      (recvLoop len (fun _ => false) (fun _ => false) len stream 0 0 0
        (eraseMem mem0 APP_OFFSET ((APP_OFFSET + totalErase len) % U32))).mem
      REAL_APP_BASE len = stream := by
    have hlenrb : (readBytes
        (recvLoop len (fun _ => false) (fun _ => false) len stream 0 0 0
          (eraseMem mem0 APP_OFFSET ((APP_OFFSET + totalErase len) % U32))).mem
        REAL_APP_BASE len).length = len := by
      simp [readBytes]
    apply List.ext_getElem (by rw [hlenrb, hstream])
    intro j hj1 hj2
    have hjlen : j < len := by rw [hlenrb] at hj1; exact hj1
    have h3 := r3 j (by omega)
    simp only [Nat.add_zero] at h3
    simp only [readBytes, readByte, List.getElem_map, List.getElem_range]
    rw [h3]
    have hjs : j < stream.length := hj2
    rw [List.getD_eq_getElem?_getD, List.getElem?_eq_getElem hjs]
    exact Nat.mod_eq_of_lt (hbytes _ (List.getElem_mem hjs))
  have hverify : verify_flash_crc
      (recvLoop len (fun _ => false) (fun _ => false) len stream 0 0 0
        (eraseMem mem0 APP_OFFSET ((APP_OFFSET + totalErase len) % U32))).mem
      (APP_BASE + METADATA_SIZE) len crcHeader = true := by
    rw [verify_flash_crc, show APP_BASE + METADATA_SIZE = REAL_APP_BASE from rfl,
      hread, hcrc]
    simp
  obtain ⟨d1, d2⟩ := dfuSession_success len crcHeader stream
    (fun _ => false) (fun _ => false) mem0 r1 hverify
  have hU : U32 = 4294967296 := by norm_num [U32]
  have hC : crc32 stream < 2 ^ 32 := crc32_lt stream
  refine ⟨?_, ?_, d1, d2, rfl, ?_, ?_⟩
  · rw [dfuSession_chunkAcks, r2]
    omega
  · rw [dfuSession_received, r1]
  · simp only [metadataBytes, MAGIC_APPS, leBytes4, List.cons_append, List.nil_append,
      List.getD_cons_succ, List.getD_cons_zero]
    omega
  · simp only [metadataBytes, MAGIC_APPS, leBytes4, List.cons_append, List.nil_append,
      List.getD_cons_succ, List.getD_cons_zero]
    rw [hcrc]
    omega

/-- C6 witness: a one-byte payload with matching checksum yields one
chunk-ack and a committed metadata record with magic, length 1 and the
payload's CRC-32. -/
theorem claim_C6_witness :
    (dfuSession 1 (crc32 [66]) [66] (fun _ => false) (fun _ => false) true true
        fun _ => 0).chunkAcks = (1 + 4095) / 4096 ∧
    (dfuSession 1 (crc32 [66]) [66] (fun _ => false) (fun _ => false) true true
        fun _ => 0).received = 1 ∧
    (dfuSession 1 (crc32 [66]) [66] (fun _ => false) (fun _ => false) true true
        fun _ => 0).metadataWrite = some (metadataBytes 1 (crc32 [66])) ∧
    (dfuSession 1 (crc32 [66]) [66] (fun _ => false) (fun _ => false) true true
        fun _ => 0).reset = true ∧
    (metadataBytes 1 (crc32 [66])).take 4 = MAGIC_APPS ∧
    (metadataBytes 1 (crc32 [66])).getD 4 0 + 256 * (metadataBytes 1 (crc32 [66])).getD 5 0 +
        65536 * (metadataBytes 1 (crc32 [66])).getD 6 0 +
        16777216 * (metadataBytes 1 (crc32 [66])).getD 7 0 = 1 ∧
    (metadataBytes 1 (crc32 [66])).getD 8 0 + 256 * (metadataBytes 1 (crc32 [66])).getD 9 0 +
        65536 * (metadataBytes 1 (crc32 [66])).getD 10 0 +
        16777216 * (metadataBytes 1 (crc32 [66])).getD 11 0 = crc32 [66] :=
  claim_C6 1 (crc32 [66]) [66] (fun _ => 0) (by decide) (by decide) (by decide)
    (by decide) rfl
